import Mathlib

/-! peertube-autoscale-runners: the reconciliation cycle of `main.go`.

A shallow embedding of `reconcile` (and of the parts of `main` and of the
package-level variables it depends on) together with the properties of one
reconciliation cycle.

Conventions of the embedding.

* Go `int` is the 64-bit two's-complement integer: values are `Int`, every
  arithmetic operation of the source goes through `wrap64`.
* Gauge values are `float64` in the source.  Only integers are ever stored, so a
  gauge value is modelled by the integer it denotes and `float64` is the
  conversion of a Go `int` (round to nearest, ties to even, 53-bit significand).
* An `error` is its message.  `fmt.Errorf("...: %s", err)` is concatenation.
* The database handle, the process environment, the external commands and
  `fmt.Sprintf` on a non-constant format are the environment of the cycle: they
  are arguments of `reconcile`.
* `log.Printf` lines are not modelled.
-/

namespace Autoscale

/-! ## Machine integers and gauge values -/

/-- Two's-complement reduction of an integer to the range of a 64-bit Go `int`. -/
def wrap64 (n : Int) : Int := (n + 2 ^ 63) % 2 ^ 64 - 2 ^ 63

/-- The conversion `float64(n)` of a Go `int`, as the integer the resulting double
denotes: magnitudes up to `2^53` are exact, larger ones keep 53 significant bits,
rounding to nearest with ties to even. -/
def float64 (n : Int) : Int :=
  let a := n.natAbs
  if a ≤ 2 ^ 53 then n
  else
    let e := Nat.log2 a - 52
    let q := a / 2 ^ e
    let r := a % 2 ^ e
    let half := 2 ^ (e - 1)
    let q1 := if half < r ∨ (r = half ∧ q % 2 = 1) then q + 1 else q
    Int.sign n * ((q1 * 2 ^ e : Nat) : Int)

/-! ## Errors, queries and the responses of the outside world -/

/-- A Go `error`, identified with its message. -/
abbrev Err := String

/-- The three query texts of the program.  `idle like` is the text of `sqlIdle`
whose `LIKE` operand is the pattern `like`. -/
inductive Query where
  | runner
  | jobs (state : Int)
  | idle (like : String)
  deriving DecidableEq, Repr

/-- Outcome of `db.QueryRow(sqlIdle).Scan(&name)`. -/
inductive RowScan where
  | row (name : String)
  | noRows
  | failed (e : Err)
  deriving DecidableEq, Repr

/-- What the database answers during one cycle.

* `runnerRows`: `db.Query(sqlRunner)` fails, or yields the rows that
  `runnerQuery.Next()` delivers, each with the result of `Scan(&name)`;
* `jobCount s`: `db.QueryRow(sqlJobs, s).Scan(&n)`;
* `idleRow like`: `db.QueryRow(q).Scan(&name)` for the idle query with pattern
  `like`. -/
structure Store where
  runnerRows : Except Err (List (Except Err String))
  jobCount : Int → Except Err Int
  idleRow : String → RowScan

/-- An external command started by `exec.Cmd.Run`: which of the two call sites
started it, the command path and the environment handed to it. -/
inductive Call where
  | up (path : String) (env : List String)
  | down (path : String) (env : List String)
  deriving DecidableEq, Repr

/-- The operating-system and library side of a cycle: `os.Environ()`, the result
of running an external command (`none` is exit status 0), and `fmt.Sprintf`
applied to a format string and one `int` operand. -/
structure Process where
  environ : List String
  run : Call → Option Err
  sprintf : String → Int → String

/-! ## Package-level variables -/

/-- The package-level variables read by `reconcile`.  `sqlIdle` holds the `LIKE`
pattern of the idle-runner query text. -/
structure Globals where
  minRunners : Int
  maxRunners : Int
  minPending : Int
  runnerPrefix : String
  up : String
  down : String
  sqlIdle : String

/-! ## Gauges -/

/-- The series of a `prometheus.GaugeVec`, keyed by label values; `none` is an
absent series. -/
abbrev GaugeVec := List String → Option Int

/-- The three registered gauge vectors. -/
structure Metrics where
  totalGaugeVec : GaugeVec
  runnersGaugeVec : GaugeVec
  jobsGaugeVec : GaugeVec

/-- `GaugeVec.Reset`: every series is deleted. -/
def GaugeVec.reset : GaugeVec := fun _ => none

/-- The check of `GetMetricWithLabelValues`: the number of label values must be the
number of variable labels of the vector (label values are Lean strings, hence
valid UTF-8). -/
def labelsOk (labelNames lvs : List String) : Except Err Unit :=
  if labelNames.length = lvs.length then .ok () else .error "inconsistent label cardinality"

/-- `GetMetricWithLabelValues(lvs...)` followed by `Inc()`: the series is created
with value 0 when absent and 1 is added in `float64`. -/
def GaugeVec.inc (v : GaugeVec) (lvs : List String) : GaugeVec :=
  fun k => if k = lvs then some (float64 ((v k).getD 0 + 1)) else v k

/-- `GetMetricWithLabelValues(lvs...)` followed by `Set(x)`. -/
def GaugeVec.set (v : GaugeVec) (lvs : List String) (x : Int) : GaugeVec :=
  fun k => if k = lvs then some x else v k

/-! ## One reconciliation cycle -/

/-- What one call of `reconcile` leaves behind: the returned error (`none` is
`nil`), the gauges, the queries sent to the database in order, and the external
commands started in order. -/
structure Outcome where
  err : Option Err
  metrics : Metrics
  queries : List Query
  calls : List Call

/-- The loop `for runnerQuery.Next()` of `reconcile`: for each delivered row, scan
the name, create and increment its series, count it.  Returns the error that
ended the loop early (if any) with the gauge vector and the counter as the loop
left them. -/
def scanRunners : List (Except Err String) → GaugeVec → Int → Option Err × GaugeVec × Int
  | [], v, runners => (none, v, runners)
  | .error e :: _, v, runners => (some e, v, runners)
  | .ok name :: rest, v, runners =>
    match labelsOk ["name"] [name] with
    | .error e => (some e, v, runners)
    | .ok _ => scanRunners rest (v.inc [name]) (wrap64 (runners + 1))

/-- The loop `for label, value := range jobs` over the entries of the map `jobs`,
given as a list: each entry sets the gauge of its label.  Returns the error that ended
the loop early (if any) with the gauge vector as the loop left it. -/
def setJobs : List (String × Int) → GaugeVec → Option Err × GaugeVec
  | [], v => (none, v)
  | (label, value) :: rest, v =>
    match labelsOk ["state"] [label] with
    | .error e => (some e, v)
    | .ok _ => setJobs rest (v.set [label] (float64 value))

/-- The scaling part of `reconcile` (from the comment `// scale up` on), entered
with the gauges published and the five reads done.  `fmt.Sprintf("RUNNER_NAME=%s", x)`
has a constant format and a string operand: it is the concatenation; the inner
`fmt.Sprintf(runnerPrefix+"%d", runners+1)` is `os.sprintf`. -/
def scale (g : Globals) (os : Process) (db : Store) (m : Metrics) (qs : List Query)
    (runners pending waiting : Int) : Outcome :=
  if pending ≥ g.minPending then
    if runners ≥ g.maxRunners then ⟨none, m, qs, []⟩
    else
      let upCmd := Call.up g.up
        (os.environ ++
          ["RUNNER_NAME=" ++ os.sprintf (g.runnerPrefix ++ "%d") (wrap64 (runners + 1))])
      match os.run upCmd with
      | some e => ⟨some ("Up command failed: " ++ e), m, qs, [upCmd]⟩
      | none => ⟨none, m, qs, [upCmd]⟩
  else if runners > g.minRunners ∧ wrap64 (pending + waiting) < g.minPending then
    let qs := qs ++ [Query.idle g.sqlIdle]
    match db.idleRow g.sqlIdle with
    | .noRows => ⟨none, m, qs, []⟩
    | .failed e => ⟨some ("Couldn't get idle runners: " ++ e), m, qs, []⟩
    | .row name =>
      if name ≠ "" then
        let downCmd := Call.down g.down (os.environ ++ ["RUNNER_NAME=" ++ name])
        match os.run downCmd with
        | some e => ⟨some ("Down command failed: " ++ e), m, qs, [downCmd]⟩
        | none => ⟨none, m, qs, [downCmd]⟩
      else ⟨none, m, qs, []⟩
  else ⟨none, m, qs, []⟩

/-- The function `reconcile` of `main.go`.  The Go map `jobs` is the list of its four
entries in the order of the assignments: its keys are distinct, so the order in which
`range` visits them does not show in the gauges (`setJobs_perm`). -/
def reconcile (g : Globals) (os : Process) (db : Store) (m : Metrics) : Outcome :=
  match db.runnerRows with
  | .error e => ⟨some e, m, [.runner], []⟩
  | .ok rows =>
  match db.jobCount 1 with
  | .error e => ⟨some e, m, [.runner, .jobs 1], []⟩
  | .ok pending =>
  match db.jobCount 2 with
  | .error e => ⟨some e, m, [.runner, .jobs 1, .jobs 2], []⟩
  | .ok processing =>
  match db.jobCount 5 with
  | .error e => ⟨some e, m, [.runner, .jobs 1, .jobs 2, .jobs 5], []⟩
  | .ok waiting =>
  match db.jobCount 9 with
  | .error e => ⟨some e, m, [.runner, .jobs 1, .jobs 2, .jobs 5, .jobs 9], []⟩
  | .ok completing =>
  let jobs : List (String × Int) :=
    [("pending", pending), ("processing", processing), ("waiting", waiting),
      ("completing", completing)]
  let qs : List Query := [.runner, .jobs 1, .jobs 2, .jobs 5, .jobs 9]
  match scanRunners rows GaugeVec.reset 0 with
  | (some e, rv, _) => ⟨some e, { m with runnersGaugeVec := rv }, qs, []⟩
  | (none, rv, runners) =>
  let m := { m with runnersGaugeVec := rv }
  match labelsOk [] [] with
  | .error e => ⟨some e, m, qs, []⟩
  | .ok _ =>
  let m := { m with totalGaugeVec := m.totalGaugeVec.set [] (float64 runners) }
  match setJobs jobs m.jobsGaugeVec with
  | (some e, jv) => ⟨some e, { m with jobsGaugeVec := jv }, qs, []⟩
  | (none, jv) =>
  scale g os db { m with jobsGaugeVec := jv } qs runners pending waiting

/-! ## Auxiliary definitions for the statements -/

/-- The series left by incrementing once per name, in order. -/
def incAll (v : GaugeVec) (names : List String) : GaugeVec :=
  names.foldl (fun acc name => acc.inc [name]) v

/-- The gauges as published by a cycle that read `names` and the four counts. -/
def published (m : Metrics) (names : List String)
    (pending processing waiting completing : Int) : Metrics :=
  { totalGaugeVec := m.totalGaugeVec.set [] (float64 names.length)
    runnersGaugeVec := incAll GaugeVec.reset names
    jobsGaugeVec :=
      (((m.jobsGaugeVec.set ["pending"] (float64 pending)).set ["processing"]
        (float64 processing)).set ["waiting"] (float64 waiting)).set ["completing"]
        (float64 completing) }

/-- The five queries every cycle sends when none of them fails. -/
def readQueries : List Query := [.runner, .jobs 1, .jobs 2, .jobs 5, .jobs 9]


/-! ## `fmt.Sprintf` with the runner prefix as format

`reconcile` formats the new runner name with `fmt.Sprintf(runnerPrefix+"%d", runners+1)`:
the prefix is part of the format string.  The fragment of Go's format language
modelled here is the one with the directives `%%` and `%d` (no flags, width,
precision or argument index) and a single `int` operand. -/

/-- Decimal rendering of a Go `int`, as the verb `%d` prints it. -/
def decimal (n : Int) : List Char :=
  if n < 0 then '-' :: Nat.toDigits 10 n.natAbs else Nat.toDigits 10 n.natAbs

/-- The decimal rendering as a string. -/
def decimalString (n : Int) : String := String.mk (decimal n)

/-- What `doPrintf` appends after the format is exhausted: the operand, when no
directive consumed it, is reported as `%!(EXTRA int=<value>)`. -/
def extraArg (a : Int) (used : Bool) : List Char :=
  if used then [] else "%!(EXTRA int=".data ++ decimal a ++ [')']

/-- Go's `doPrintf` for one `int` operand `a` on the fragment above; `used` tells
whether the operand has been consumed.  Text is copied, `%%` prints a percent
sign, `%d` prints the operand or `%!d(MISSING)` when it is already consumed, a
percent sign ending the format prints `%!(NOVERB)`.  Any other directive is
outside the fragment: the result is `none`. -/
def doPrintf : List Char → Int → Bool → Option (List Char)
  | [], a, used => some (extraArg a used)
  | [c], a, used =>
    if c = '%' then some ("%!(NOVERB)".data ++ extraArg a used) else some (c :: extraArg a used)
  | c :: v :: rest, a, used =>
    if c = '%' then
      if v = '%' then (doPrintf rest a used).map (fun out => '%' :: out)
      else if v = 'd' then
        if used then (doPrintf rest a used).map (fun out => "%!d(MISSING)".data ++ out)
        else (doPrintf rest a true).map (fun out => decimal a ++ out)
      else none
    else (doPrintf (v :: rest) a used).map (fun out => c :: out)

/-- A `Process` whose `sprintf` is Go's `fmt.Sprintf` on the modelled fragment. -/
def GoFmt (os : Process) : Prop :=
  ∀ (format : String) (a : Int) (out : List Char),
    doPrintf format.data a false = some out → os.sprintf format a = String.mk out

/-- A total formatting function that agrees with Go on the modelled fragment (and
yields the empty string outside of it); used for concrete evaluations. -/
def sprintfModel (format : String) (a : Int) : String :=
  match doPrintf format.data a false with
  | some out => String.mk out
  | none => ""

/-! ## Start-up: package initialisation and flag parsing -/

/-- The zero values the package-level variables hold before any initialiser
runs. -/
def Globals.zero : Globals :=
  { minRunners := 0, maxRunners := 0, minPending := 0, runnerPrefix := "", up := "",
    down := "", sqlIdle := "" }

/-- The `LIKE` pattern spliced into the text of `sqlIdle` by its initialiser
(the operand is the concatenation of the quoted runner prefix and a percent sign). -/
def sqlIdlePattern (runnerPrefix : String) : String := runnerPrefix ++ "%"

/-- Package initialisation: the initialiser of `sqlIdle` is evaluated, before
`main` runs, with the value `runnerPrefix` has then: no initialiser, hence its
zero value. -/
def packageInit : Globals :=
  { Globals.zero with sqlIdle := sqlIdlePattern Globals.zero.runnerPrefix }

/-- The command line: the value given for each option, `none` when absent. -/
structure CommandLine where
  up : Option String
  down : Option String
  runnerPrefix : Option String
  minRunners : Option Int
  maxRunners : Option Int
  minPending : Option Int

/-- The empty command line: every option absent. -/
def CommandLine.empty : CommandLine :=
  { up := none, down := none, runnerPrefix := none, minRunners := none, maxRunners := none,
    minPending := none }

/-- The `flag.StringVar`/`flag.IntVar` registrations and `flag.Parse()` of `main`:
each variable receives the command-line value or its registered default.  No
other package-level variable is assigned. -/
def parseFlags (cl : CommandLine) (g : Globals) : Globals :=
  { g with
    up := cl.up.getD ""
    down := cl.down.getD ""
    runnerPrefix := cl.runnerPrefix.getD "runner"
    minRunners := cl.minRunners.getD 0
    maxRunners := cl.maxRunners.getD 1
    minPending := cl.minPending.getD 10 }

/-- The package-level variables as every call of `reconcile` finds them. -/
def startup (cl : CommandLine) : Globals := parseFlags cl packageInit

/-! ## The tables behind the queries -/

/-- A row of table `runner`. -/
structure RunnerRow where
  id : Nat
  name : String

/-- A row of table `runnerJob`; `runnerId` is nullable. -/
structure JobRow where
  id : Nat
  runnerId : Option Nat
  state : Int

/-- The two tables the queries read, rows in the order a scan returns them. -/
structure Database where
  runner : List RunnerRow
  runnerJob : List JobRow

/-- SQL `LIKE` with the wildcards `%` (any sequence of characters) and `_` (any one
character); the first argument is the pattern. -/
def likeMatch : List Char → List Char → Bool
  | [], s => s.isEmpty
  | p :: ps, s =>
    if p = '%' then s.tails.any (fun t => likeMatch ps t)
    else match s with
      | [] => false
      | c :: t => (p = '_' || p = c) && likeMatch ps t

/-- The sub-select of `sqlIdle`: runner `id` has a job in state 2 or 9. -/
def Database.busy (d : Database) (id : Nat) : Bool :=
  d.runnerJob.any (fun j => j.runnerId = some id && (j.state = 2 || j.state = 9))

/-- The answers of a reachable database holding the given tables: `sqlRunner`
returns every name, `sqlJobs` counts the jobs in the given state, the idle query
returns the first runner that is not busy and whose name matches the pattern.
Patterns with the escape character are not modelled and answered by an error. -/
def Database.store (d : Database) : Store :=
  { runnerRows := .ok (d.runner.map (fun r => .ok r.name))
    jobCount := fun s => .ok ((d.runnerJob.filter (fun j => j.state = s)).length : Int)
    idleRow := fun like =>
      if Char.ofNat 92 ∈ like.data then .failed "escape in LIKE pattern"
      else
        match (d.runner.filter
            (fun r => !d.busy r.id && likeMatch like.data r.name.data)).head? with
        | some r => .row r.name
        | none => .noRows }

/-! ## Concrete processes and gauge states used in the examples -/

/-- Package-level variables with the given bounds and runner prefix, the command paths
`./up.sh` and `./down.sh`, and the idle pattern of `packageInit`. -/
def demoGlobals (minRunners maxRunners minPending : Int) (runnerPrefix : String) : Globals :=
  { minRunners := minRunners, maxRunners := maxRunners, minPending := minPending,
    runnerPrefix := runnerPrefix, up := "./up.sh", down := "./down.sh",
    sqlIdle := packageInit.sqlIdle }

/-- The command line `-min-runners=1`. -/
def minOneCommandLine : CommandLine := { CommandLine.empty with minRunners := some 1 }

/-- The command line `-runner-prefix=runner`. -/
def runnerCommandLine : CommandLine := { CommandLine.empty with runnerPrefix := some "runner" }

/-- The command line `-max-runners=5`. -/
def maxFiveCommandLine : CommandLine := { CommandLine.empty with maxRunners := some 5 }

/-- A process with a one-entry environment whose external commands succeed. -/
def demoProcess : Process :=
  { environ := ["PATH=/usr/bin"], run := fun _ => none, sprintf := sprintfModel }

/-- Gauges with no series at all (the state after registration). -/
def noMetrics : Metrics :=
  { totalGaugeVec := GaugeVec.reset, runnersGaugeVec := GaugeVec.reset,
    jobsGaugeVec := GaugeVec.reset }

/-- A store that answers the runner query with `names`, the four count queries
with the given counts and the idle query with `idle`. -/
def demoStore (names : List String) (pending processing waiting completing : Int)
    (idle : RowScan) : Store :=
  { runnerRows := .ok (names.map Except.ok)
    jobCount := fun s =>
      if s = 1 then .ok pending else if s = 2 then .ok processing
      else if s = 5 then .ok waiting else if s = 9 then .ok completing
      else .error "unknown state"
    idleRow := fun _ => idle }

/-- Two registered runners: runner 1 is processing a job, runner 2 is idle and its
name is the empty string. -/
def emptyNameDb : Database :=
  { runner := [⟨1, "runner1"⟩, ⟨2, ""⟩]
    runnerJob := [⟨1, some 1, 2⟩] }

/-- The state codes of the four count queries, in the order `reconcile` sends them. -/
def jobStates : List Int := [1, 2, 5, 9]

/-- A store whose runner query and first two count queries succeed and whose count
query for state 5 fails. -/
def waitingFailsStore : Store :=
  { runnerRows := .ok [.ok "runner1"]
    jobCount := fun s =>
      if s = 1 then .ok 12 else if s = 2 then .ok 0
      else if s = 5 then .error "connection reset" else .ok 0
    idleRow := fun _ => .noRows }

/-- Gauges left by an earlier cycle: a presence series for `runner9`, total 9 and 99
pending jobs. -/
def staleMetrics : Metrics :=
  { totalGaugeVec := GaugeVec.reset.set [] 9
    runnersGaugeVec := GaugeVec.reset.set ["runner9"] 1
    jobsGaugeVec := GaugeVec.reset.set ["pending"] 99 }

/-- The number a list of decimal digit characters denotes. -/
def digitsValue (ds : List Char) : Nat :=
  ds.foldl (fun acc c => 10 * acc + (c.toNat - 48)) 0

/-- Two registered runners without any job: `encoder-a` (first in scan order) and
`runner1`. -/
def mixedNamesDb : Database :=
  { runner := [⟨1, "encoder-a"⟩, ⟨2, "runner1"⟩]
    runnerJob := [] }
/-! ## Basic facts about the arithmetic and the loops -/

theorem wrap64_of_range {n : Int} (h0 : -2 ^ 63 ≤ n) (h1 : n < 2 ^ 63) : wrap64 n = n := by
  unfold wrap64
  omega

theorem float64_of_small {n : Int} (h : n.natAbs ≤ 2 ^ 53) : float64 n = n := by
  unfold float64
  simp only [h, if_true]

theorem labelsOk_one (a b : String) : labelsOk [a] [b] = .ok () := rfl

theorem labelsOk_nil : labelsOk [] [] = .ok () := rfl

theorem GaugeVec.set_comm (v : GaugeVec) (a b : List String) (x y : Int) (hab : a ≠ b) :
    (v.set a x).set b y = (v.set b y).set a x := by
  funext k
  unfold GaugeVec.set
  by_cases hb : k = b
  · by_cases ha : k = a
    · exact absurd (ha.symm.trans hb) hab
    · simp [hb, hab.symm]
  · simp [hb]

theorem setJobs_eq (jobs : List (String × Int)) (v : GaugeVec) :
    setJobs jobs v = (none, jobs.foldl (fun acc e => acc.set [e.1] (float64 e.2)) v) := by
  induction jobs generalizing v with
  | nil => rfl
  | cons e rest ih =>
    obtain ⟨label, value⟩ := e
    simp only [setJobs, labelsOk_one, ih, List.foldl_cons]

/-- The gauges left by the loop over the map `jobs` do not depend on the order in which
the entries are visited, the labels being distinct. -/
theorem setJobs_perm (l1 l2 : List (String × Int)) (v : GaugeVec) (hp : l1.Perm l2)
    (hnd : (l1.map Prod.fst).Nodup) : setJobs l1 v = setJobs l2 v := by
  rw [setJobs_eq, setJobs_eq]
  congr 1
  induction hp generalizing v with
  | nil => rfl
  | cons e _ ih =>
    simp only [List.map_cons, List.nodup_cons] at hnd
    simp only [List.foldl_cons]
    exact ih _ hnd.2
  | swap e1 e2 l =>
    simp only [List.map_cons, List.nodup_cons, List.mem_cons, not_or] at hnd
    simp only [List.foldl_cons]
    rw [GaugeVec.set_comm]
    intro h
    exact hnd.1.1 (List.head_eq_of_cons_eq h)
  | trans h12 _ ih1 ih2 =>
    rw [ih1 v hnd, ih2 v ((h12.map Prod.fst).nodup_iff.mp hnd)]

/-- When every row scans, the loop runs to the end, increments the series of each
name in order and counts the rows (the count stays below `2^63`). -/
theorem scanRunners_ok (names : List String) (v : GaugeVec) (n : Int)
    (h0 : 0 ≤ n) (h1 : n + names.length < 2 ^ 63) :
    scanRunners (names.map Except.ok) v n = (none, incAll v names, n + names.length) := by
  induction names generalizing v n with
  | nil => simp [scanRunners, incAll]
  | cons a rest ih =>
    have hlen : ((a :: rest).length : Int) = rest.length + 1 := by simp
    rw [hlen] at h1
    have hw : wrap64 (n + 1) = n + 1 := wrap64_of_range (by omega) (by omega)
    simp only [List.map_cons, scanRunners, labelsOk_one, hw]
    rw [ih _ _ (by omega) (by omega)]
    simp only [incAll, List.foldl_cons, hlen]
    congr 2
    omega

/-- A cycle whose reads succeed publishes the gauges and goes on to the scaling
part with the number of rows as `runners`. -/
theorem reconcile_of_reads (g : Globals) (os : Process) (db : Store) (m : Metrics)
    (names : List String) (pending processing waiting completing : Int)
    (hr : db.runnerRows = .ok (names.map Except.ok))
    (h1 : db.jobCount 1 = .ok pending) (h2 : db.jobCount 2 = .ok processing)
    (h5 : db.jobCount 5 = .ok waiting) (h9 : db.jobCount 9 = .ok completing)
    (hlen : (names.length : Int) < 2 ^ 63) :
    reconcile g os db m =
      scale g os db (published m names pending processing waiting completing) readQueries
        names.length pending waiting := by
  have hs := scanRunners_ok names GaugeVec.reset 0 (le_refl 0) (by omega)
  simp only [zero_add] at hs
  simp only [reconcile, hr, h1, h2, h5, h9, hs, labelsOk_nil, setJobs, labelsOk_one, published,
    readQueries]

/-- The scaling part with `pending >= minPending` and fewer runners than `maxRunners`:
one command, the up command for index `runners + 1`, and no further query. -/
theorem scale_up_calls (g : Globals) (os : Process) (db : Store) (m : Metrics) (qs : List Query)
    (runners pending waiting : Int) (h0 : 0 ≤ runners) (hmax : g.maxRunners < 2 ^ 63)
    (hp : pending ≥ g.minPending) (hn : runners < g.maxRunners) :
    (scale g os db m qs runners pending waiting).calls =
      [Call.up g.up (os.environ ++
        ["RUNNER_NAME=" ++ os.sprintf (g.runnerPrefix ++ "%d") (runners + 1)])] ∧
    (scale g os db m qs runners pending waiting).queries = qs := by
  have hw : wrap64 (runners + 1) = runners + 1 := wrap64_of_range (by omega) (by omega)
  have hn2 : ¬ runners ≥ g.maxRunners := by omega
  simp only [scale, hp, hn2, if_true, if_false, hw]
  cases os.run _ <;> simp

/-- C1. In every cycle whose reads succeed with `pending >= minPending` and fewer runner
rows than `maxRunners` (a Go `int`, hence below `2^63`), exactly one external command is
started: the up command, handed the parent environment and the name formatted from the
index `activeCount + 1`; the down command is not started and the idle-runner query is not
sent, whatever the waiting count and the idle-runner answer. -/
theorem reconcile_scale_up (g : Globals) (os : Process) (db : Store) (m : Metrics)
    (names : List String) (pending processing waiting completing : Int)
    (hr : db.runnerRows = .ok (names.map Except.ok))
    (h1 : db.jobCount 1 = .ok pending) (h2 : db.jobCount 2 = .ok processing)
    (h5 : db.jobCount 5 = .ok waiting) (h9 : db.jobCount 9 = .ok completing)
    (hmax : g.maxRunners < 2 ^ 63)
    (hp : pending ≥ g.minPending) (hn : (names.length : Int) < g.maxRunners) :
    (reconcile g os db m).calls =
      [Call.up g.up (os.environ ++
        ["RUNNER_NAME=" ++ os.sprintf (g.runnerPrefix ++ "%d") (names.length + 1)])] ∧
    (reconcile g os db m).queries = readQueries := by
  have hlen : (names.length : Int) < 2 ^ 63 := by omega
  rw [reconcile_of_reads g os db m names pending processing waiting completing hr h1 h2 h5 h9
    hlen]
  exact scale_up_calls g os db _ readQueries names.length pending waiting (by omega) hmax hp hn

/-- C2. In every cycle whose reads succeed with `pending >= minPending` and at least
`maxRunners` runner rows (fewer than `2^63`, so that the Go counter holds their number), no
external command is started, the idle-runner query is not sent and `reconcile` returns
`nil`, whatever the waiting count and the idle-runner answer. -/
theorem reconcile_at_capacity (g : Globals) (os : Process) (db : Store) (m : Metrics)
    (names : List String) (pending processing waiting completing : Int)
    (hr : db.runnerRows = .ok (names.map Except.ok))
    (h1 : db.jobCount 1 = .ok pending) (h2 : db.jobCount 2 = .ok processing)
    (h5 : db.jobCount 5 = .ok waiting) (h9 : db.jobCount 9 = .ok completing)
    (hlen : (names.length : Int) < 2 ^ 63)
    (hp : pending ≥ g.minPending) (hn : (names.length : Int) ≥ g.maxRunners) :
    (reconcile g os db m).calls = [] ∧ (reconcile g os db m).err = none ∧
    (reconcile g os db m).queries = readQueries := by
  rw [reconcile_of_reads g os db m names pending processing waiting completing hr h1 h2 h5 h9
    hlen]
  simp only [scale, hp, hn, if_true, and_self]


/-- Scenario A of the specification (`minPending = 10`, `maxRunners = 5`, 12 pending jobs,
3 runners): the up command is started once, for index 4. -/
theorem reconcile_scale_up_witness :
    (reconcile (demoGlobals 0 5 10 "runner")
        demoProcess (demoStore ["runner1", "runner2", "runner3"] 12 0 7 0 (.row "runner2"))
        noMetrics).calls =
      [Call.up "./up.sh" ["PATH=/usr/bin", "RUNNER_NAME=runner4"]] ∧
    (reconcile (demoGlobals 0 5 10 "runner")
        demoProcess (demoStore ["runner1", "runner2", "runner3"] 12 0 7 0 (.row "runner2"))
        noMetrics).queries = readQueries :=
  reconcile_scale_up (demoGlobals 0 5 10 "runner")
    demoProcess (demoStore ["runner1", "runner2", "runner3"] 12 0 7 0 (.row "runner2")) noMetrics
    ["runner1", "runner2", "runner3"] 12 0 7 0 rfl rfl rfl rfl rfl (by decide) (by decide)
    (by decide)

/-- Scenario B of the specification (`minPending = 10`, `maxRunners = 3`, 12 pending jobs,
3 runners, an idle runner present): nothing is started. -/
theorem reconcile_at_capacity_witness :
    (reconcile (demoGlobals 0 3 10 "runner")
        demoProcess (demoStore ["runner1", "runner2", "runner3"] 12 0 0 0 (.row "runner2"))
        noMetrics).calls = [] ∧
    (reconcile (demoGlobals 0 3 10 "runner")
        demoProcess (demoStore ["runner1", "runner2", "runner3"] 12 0 0 0 (.row "runner2"))
        noMetrics).err = none ∧
    (reconcile (demoGlobals 0 3 10 "runner")
        demoProcess (demoStore ["runner1", "runner2", "runner3"] 12 0 0 0 (.row "runner2"))
        noMetrics).queries = readQueries :=
  reconcile_at_capacity
    (demoGlobals 0 3 10 "runner")
    demoProcess (demoStore ["runner1", "runner2", "runner3"] 12 0 0 0 (.row "runner2")) noMetrics
    ["runner1", "runner2", "runner3"] 12 0 0 0 rfl rfl rfl rfl rfl (by decide) (by decide)
    (by decide)

/-- The scaling part never touches the gauges. -/
theorem scale_metrics (g : Globals) (os : Process) (db : Store) (m : Metrics) (qs : List Query)
    (runners pending waiting : Int) : (scale g os db m qs runners pending waiting).metrics = m := by
  unfold scale
  repeat' split
  all_goals first | rfl | (dsimp only; split <;> rfl)

/-- C3, counterexample. With `minRunners = 1`, `minPending = 10`, no pending or waiting job,
two runners and the idle query returning the (empty) name of the idle one, no command is
started at all. -/
theorem reconcile_idle_empty_name_no_down :
    emptyNameDb.store.runnerRows = .ok (["runner1", ""].map Except.ok) ∧
    emptyNameDb.store.jobCount 1 = .ok 0 ∧ emptyNameDb.store.jobCount 5 = .ok 0 ∧
    emptyNameDb.store.idleRow (startup minOneCommandLine).sqlIdle = .row "" ∧
    ((["runner1", ""].length : Int) > (startup minOneCommandLine).minRunners) ∧
    ((0 : Int) + 0 < (startup minOneCommandLine).minPending) ∧
    (reconcile (startup minOneCommandLine) demoProcess emptyNameDb.store
      noMetrics).calls = [] :=
  ⟨rfl, rfl, rfl, by decide, by decide, by decide, by decide⟩

/-- C3, amended. In every cycle whose reads succeed with more runner rows than `minRunners`,
`pending + waiting < minPending` (counts are non-negative, values are Go `int`s) and the
idle query returning a name that is not the empty string, exactly one external command is
started: the down command, with the parent environment followed by
`RUNNER_NAME=<that name>`; the up command is not started. -/
theorem reconcile_scale_down (g : Globals) (os : Process) (db : Store) (m : Metrics)
    (names : List String) (pending processing waiting completing : Int) (name : String)
    (hr : db.runnerRows = .ok (names.map Except.ok))
    (h1 : db.jobCount 1 = .ok pending) (h2 : db.jobCount 2 = .ok processing)
    (h5 : db.jobCount 5 = .ok waiting) (h9 : db.jobCount 9 = .ok completing)
    (hlen : (names.length : Int) < 2 ^ 63) (hmp : g.minPending ≤ 2 ^ 63)
    (hp0 : 0 ≤ pending) (hw0 : 0 ≤ waiting)
    (hn : (names.length : Int) > g.minRunners) (hsum : pending + waiting < g.minPending)
    (hidle : db.idleRow g.sqlIdle = .row name) (hname : name ≠ "") :
    (reconcile g os db m).calls =
      [Call.down g.down (os.environ ++ ["RUNNER_NAME=" ++ name])] := by
  rw [reconcile_of_reads g os db m names pending processing waiting completing hr h1 h2 h5 h9
    hlen]
  have hw : wrap64 (pending + waiting) = pending + waiting :=
    wrap64_of_range (by omega) (by omega)
  have hp : ¬ pending ≥ g.minPending := by omega
  simp only [scale, hp, hn, hw, hsum, hidle, hname, if_true, if_false, and_self, ne_eq,
    not_false_eq_true]
  cases os.run _ <;> simp

/-- Scenario C of the specification (`minRunners = 1`, `minPending = 10`, 2 pending and 3
waiting jobs, 2 runners, idle runner `runner2`): the down command is started once for
`runner2`. -/
theorem reconcile_scale_down_witness :
    (reconcile (demoGlobals 1 5 10 "runner")
        demoProcess (demoStore ["runner1", "runner2"] 2 1 3 0 (.row "runner2")) noMetrics).calls =
      [Call.down "./down.sh" ["PATH=/usr/bin", "RUNNER_NAME=runner2"]] :=
  reconcile_scale_down (demoGlobals 1 5 10 "runner")
    demoProcess (demoStore ["runner1", "runner2"] 2 1 3 0 (.row "runner2")) noMetrics
    ["runner1", "runner2"] 2 1 3 0 "runner2" rfl rfl rfl rfl rfl (by decide) (by decide)
    (by decide) (by decide) (by decide) (by decide) rfl (by decide)

/-- The counter of the row loop never exceeds the number of rows delivered. -/
theorem scanRunners_le (rows : List (Except Err String)) (v : GaugeVec) (n : Int)
    (h0 : 0 ≤ n) (h1 : n + rows.length < 2 ^ 63) :
    (scanRunners rows v n).2.2 ≤ n + rows.length := by
  induction rows generalizing v n with
  | nil => simp [scanRunners]
  | cons a rest ih =>
    have hlen : ((a :: rest).length : Int) = rest.length + 1 := by simp
    rw [hlen] at h1 ⊢
    cases a with
    | error e => simp only [scanRunners]; omega
    | ok name =>
      have hw : wrap64 (n + 1) = n + 1 := wrap64_of_range (by omega) (by omega)
      simp only [scanRunners, labelsOk_one, hw]
      have := ih (v.inc [name]) (n + 1) (by omega) (by omega)
      omega

/-- With at most `minRunners` runners counted, the scaling part starts no down command
and sends no idle-runner query. -/
theorem scale_at_floor (g : Globals) (os : Process) (db : Store) (m : Metrics) (qs : List Query)
    (runners pending waiting : Int) (hq : ∀ like, Query.idle like ∉ qs)
    (h : runners ≤ g.minRunners) :
    (∀ path env, Call.down path env ∉ (scale g os db m qs runners pending waiting).calls) ∧
    (∀ like, Query.idle like ∉ (scale g os db m qs runners pending waiting).queries) := by
  have hn : ¬ runners > g.minRunners := by omega
  unfold scale
  by_cases hp : pending ≥ g.minPending
  · by_cases hc : runners ≥ g.maxRunners
    · simpa [hp, hc] using hq
    · simp only [hp, hc, if_true, if_false]
      cases os.run _ <;> simpa using hq
  · simpa [hp, hn] using hq

/-- C4. Whenever the number of runner rows read is at most `minRunners` (a Go `int`, hence
below `2^63`), also when a later read fails, and whatever the job counts and the
idle-runner answer, `reconcile` starts no down command and does not even send the
idle-runner query. -/
theorem reconcile_no_down_at_floor (g : Globals) (os : Process) (db : Store) (m : Metrics)
    (hmin : g.minRunners < 2 ^ 63)
    (h : ∀ rows, db.runnerRows = .ok rows → (rows.length : Int) ≤ g.minRunners) :
    (∀ path env, Call.down path env ∉ (reconcile g os db m).calls) ∧
    (∀ like, Query.idle like ∉ (reconcile g os db m).queries) := by
  cases hr : db.runnerRows with
  | error e => simp [reconcile, hr]
  | ok rows =>
  cases h1 : db.jobCount 1 with
  | error e => simp [reconcile, hr, h1]
  | ok pending =>
  cases h2 : db.jobCount 2 with
  | error e => simp [reconcile, hr, h1, h2]
  | ok processing =>
  cases h5 : db.jobCount 5 with
  | error e => simp [reconcile, hr, h1, h2, h5]
  | ok waiting =>
  cases h9 : db.jobCount 9 with
  | error e => simp [reconcile, hr, h1, h2, h5, h9]
  | ok completing =>
  have hle := h rows hr
  have hcount := scanRunners_le rows GaugeVec.reset 0 (le_refl 0) (by omega)
  rcases hs : scanRunners rows GaugeVec.reset 0 with ⟨e, rv, runners⟩
  rw [hs] at hcount
  simp only [zero_add] at hcount
  cases e with
  | some e => simp [reconcile, hr, h1, h2, h5, h9, hs]
  | none =>
    simp only [reconcile, hr, h1, h2, h5, h9, hs, labelsOk_nil, setJobs, labelsOk_one]
    exact scale_at_floor _ _ _ _ _ _ _ _ (by simp) (by omega)

/-- One runner and `minRunners = 1`, no job at all, the idle query ready to answer
`runner1`: no down command is started and the idle query is not sent. -/
theorem reconcile_no_down_at_floor_witness :
    (∀ path env, Call.down path env ∉
      (reconcile (demoGlobals 1 5 10 "runner")
        demoProcess (demoStore ["runner1"] 0 0 0 0 (.row "runner1")) noMetrics).calls) ∧
    (∀ like, Query.idle like ∉
      (reconcile (demoGlobals 1 5 10 "runner")
        demoProcess (demoStore ["runner1"] 0 0 0 0 (.row "runner1")) noMetrics).queries) :=
  reconcile_no_down_at_floor (demoGlobals 1 5 10 "runner")
    demoProcess (demoStore ["runner1"] 0 0 0 0 (.row "runner1")) noMetrics (by decide)
    (fun rows hr => by cases hr; decide)

/-- C5. When the scale-down condition holds (`pending < minPending`, more runner rows than
`minRunners`, `pending + waiting < minPending`; counts non-negative, values Go `int`s) and
the idle-runner query finds no row, `reconcile` returns `nil` and starts no command; when
that query fails in any other way, `reconcile` returns an error (the failure, wrapped) and
starts no command either. -/
theorem reconcile_no_idle_runner (g : Globals) (os : Process) (db : Store) (m : Metrics)
    (names : List String) (pending processing waiting completing : Int)
    (hr : db.runnerRows = .ok (names.map Except.ok))
    (h1 : db.jobCount 1 = .ok pending) (h2 : db.jobCount 2 = .ok processing)
    (h5 : db.jobCount 5 = .ok waiting) (h9 : db.jobCount 9 = .ok completing)
    (hlen : (names.length : Int) < 2 ^ 63) (hmp : g.minPending ≤ 2 ^ 63)
    (hp0 : 0 ≤ pending) (hw0 : 0 ≤ waiting)
    (hp : pending < g.minPending) (hn : (names.length : Int) > g.minRunners)
    (hsum : pending + waiting < g.minPending) :
    (db.idleRow g.sqlIdle = .noRows →
      (reconcile g os db m).err = none ∧ (reconcile g os db m).calls = []) ∧
    (∀ e, db.idleRow g.sqlIdle = .failed e →
      (reconcile g os db m).err = some ("Couldn't get idle runners: " ++ e) ∧
      (reconcile g os db m).calls = []) := by
  rw [reconcile_of_reads g os db m names pending processing waiting completing hr h1 h2 h5 h9
    hlen]
  have hw : wrap64 (pending + waiting) = pending + waiting :=
    wrap64_of_range (by omega) (by omega)
  have hp2 : ¬ pending ≥ g.minPending := by omega
  constructor
  · intro hidle
    simp only [scale, hp2, hn, hw, hsum, hidle, if_true, if_false, and_self]
  · intro e hidle
    simp only [scale, hp2, hn, hw, hsum, hidle, if_true, if_false, and_self]

/-- Scenario D of the specification (as scenario C, but the idle query finds no row): no
error, no command. -/
theorem reconcile_no_idle_runner_witness :
    (reconcile (demoGlobals 1 5 10 "runner")
        demoProcess (demoStore ["runner1", "runner2"] 2 1 3 1 .noRows) noMetrics).err = none ∧
    (reconcile (demoGlobals 1 5 10 "runner")
        demoProcess (demoStore ["runner1", "runner2"] 2 1 3 1 .noRows) noMetrics).calls = [] :=
  (reconcile_no_idle_runner (demoGlobals 1 5 10 "runner")
    demoProcess (demoStore ["runner1", "runner2"] 2 1 3 1 .noRows) noMetrics
    ["runner1", "runner2"] 2 1 3 1 rfl rfl rfl rfl rfl (by decide) (by decide)
    (by decide) (by decide) (by decide) (by decide) (by decide)).1 rfl

/-- C8. When the runner query succeeds and one of the four count queries (states 1, 2, 5,
9) fails, `reconcile` stops at the first failing one: it returns exactly that error, has
sent the runner query and the count queries up to the failing one and nothing after it,
starts no command, and leaves all three gauge vectors as they were. -/
theorem reconcile_count_failure (g : Globals) (os : Process) (db : Store) (m : Metrics)
    (rows : List (Except Err String)) (hr : db.runnerRows = .ok rows)
    (hfail : ∃ s ∈ jobStates, ∃ e, db.jobCount s = .error e) :
    ∃ s ∈ jobStates, ∃ e, db.jobCount s = .error e ∧
      (∀ t ∈ jobStates.takeWhile (fun t => t ≠ s), ∃ n, db.jobCount t = .ok n) ∧
      (reconcile g os db m).err = some e ∧
      (reconcile g os db m).calls = [] ∧
      (reconcile g os db m).metrics = m ∧
      (reconcile g os db m).queries =
        Query.runner :: ((jobStates.takeWhile (fun t => t ≠ s)) ++ [s]).map Query.jobs := by
  cases h1 : db.jobCount 1 with
  | error e =>
    exact ⟨1, by decide, e, h1, by simp [jobStates], by simp [reconcile, hr, h1, jobStates]⟩
  | ok pending =>
  cases h2 : db.jobCount 2 with
  | error e =>
    exact ⟨2, by decide, e, h2, by simp [jobStates, h1],
      by simp [reconcile, hr, h1, h2, jobStates]⟩
  | ok processing =>
  cases h5 : db.jobCount 5 with
  | error e =>
    exact ⟨5, by decide, e, h5, by simp [jobStates, h1, h2],
      by simp [reconcile, hr, h1, h2, h5, jobStates]⟩
  | ok waiting =>
  cases h9 : db.jobCount 9 with
  | error e =>
    exact ⟨9, by decide, e, h9, by simp [jobStates, h1, h2, h5],
      by simp [reconcile, hr, h1, h2, h5, h9, jobStates]⟩
  | ok completing =>
    exfalso
    obtain ⟨s, hs, e, he⟩ := hfail
    simp only [jobStates, List.mem_cons, List.mem_singleton, List.not_mem_nil, or_false] at hs
    rcases hs with rfl | rfl | rfl | rfl
    · rw [h1] at he; cases he
    · rw [h2] at he; cases he
    · rw [h5] at he; cases he
    · rw [h9] at he; cases he

/-- The count query for state 5 fails with stale gauges around: the error is returned, the
completing count is never asked for, no command is started, the gauges stay stale. -/
theorem reconcile_count_failure_witness :
    ∃ s ∈ jobStates, ∃ e, waitingFailsStore.jobCount s = .error e ∧
      (∀ t ∈ jobStates.takeWhile (fun t => t ≠ s), ∃ n, waitingFailsStore.jobCount t = .ok n) ∧
      (reconcile (startup CommandLine.empty) demoProcess waitingFailsStore staleMetrics).err =
        some e ∧
      (reconcile (startup CommandLine.empty) demoProcess waitingFailsStore staleMetrics).calls =
        [] ∧
      (reconcile (startup CommandLine.empty) demoProcess waitingFailsStore staleMetrics).metrics =
        staleMetrics ∧
      (reconcile (startup CommandLine.empty) demoProcess waitingFailsStore staleMetrics).queries =
        Query.runner :: ((jobStates.takeWhile (fun t => t ≠ s)) ++ [s]).map Query.jobs :=
  reconcile_count_failure (startup CommandLine.empty) demoProcess waitingFailsStore staleMetrics
    [.ok "runner1"] rfl ⟨5, by decide, "connection reset", rfl⟩

theorem incAll_append (v : GaugeVec) (l : List String) (a : String) :
    incAll v (l ++ [a]) = (incAll v l).inc [a] := by
  simp [incAll, List.foldl_append]

/-- After a reset, incrementing once per row leaves, under each key, the number of rows
whose name forms that key, and no series where that number is zero. -/
theorem incAll_reset_apply (names : List String) (hlen : names.length ≤ 2 ^ 53)
    (k : List String) :
    incAll GaugeVec.reset names k =
      if (names.filter (fun n => [n] = k)).length = 0 then none
      else some ((names.filter (fun n => [n] = k)).length : Int) := by
  induction names using List.reverseRecOn with
  | nil => simp [incAll, GaugeVec.reset]
  | append_singleton l a ih =>
    have hl : l.length + 1 ≤ 2 ^ 53 := by simpa using hlen
    have ih := ih (by omega)
    have hfl : (l.filter (fun n => [n] = k)).length ≤ l.length := List.length_filter_le _ _
    rw [incAll_append]
    unfold GaugeVec.inc
    rw [List.filter_append, List.length_append]
    generalize (l.filter (fun n => [n] = k)).length = c at ih hfl
    by_cases hk : k = [a]
    · have hget : (incAll GaugeVec.reset l k).getD 0 = (c : Int) := by
        rw [ih]; by_cases hz : c = 0 <;> simp [hz]
      have hf : float64 ((c : Int) + 1) = (c : Int) + 1 := float64_of_small (by omega)
      subst hk
      simp [hget, hf]
    · have hk2 : ¬ [a] = k := fun h => hk h.symm
      simp [hk, hk2, ih]

/-- C9. For every prior gauge state, after a cycle whose reads succeed (the names read are
distinct, runner names being unique; at most `2^53` rows and counts of magnitude at most
`2^53`, the range in which `float64` is exact) the published gauges are determined by this
cycle's reads alone: the runner-presence vector has a series exactly for the names read,
each with value 1, and no series under any other key; the total gauge holds the number of
runners read; each of the four per-state gauges holds the count read. -/
theorem reconcile_publishes_reads (g : Globals) (os : Process) (db : Store) (m : Metrics)
    (names : List String) (pending processing waiting completing : Int)
    (hr : db.runnerRows = .ok (names.map Except.ok))
    (h1 : db.jobCount 1 = .ok pending) (h2 : db.jobCount 2 = .ok processing)
    (h5 : db.jobCount 5 = .ok waiting) (h9 : db.jobCount 9 = .ok completing)
    (hnd : names.Nodup) (hlen : names.length ≤ 2 ^ 53)
    (hc1 : pending.natAbs ≤ 2 ^ 53) (hc2 : processing.natAbs ≤ 2 ^ 53)
    (hc5 : waiting.natAbs ≤ 2 ^ 53) (hc9 : completing.natAbs ≤ 2 ^ 53) :
    (∀ name, (reconcile g os db m).metrics.runnersGaugeVec [name] =
      if name ∈ names then some 1 else none) ∧
    (∀ k, (∀ name, k ≠ [name]) → (reconcile g os db m).metrics.runnersGaugeVec k = none) ∧
    (reconcile g os db m).metrics.totalGaugeVec [] = some (names.length : Int) ∧
    (reconcile g os db m).metrics.jobsGaugeVec ["pending"] = some pending ∧
    (reconcile g os db m).metrics.jobsGaugeVec ["processing"] = some processing ∧
    (reconcile g os db m).metrics.jobsGaugeVec ["waiting"] = some waiting ∧
    (reconcile g os db m).metrics.jobsGaugeVec ["completing"] = some completing := by
  rw [reconcile_of_reads g os db m names pending processing waiting completing hr h1 h2 h5 h9
    (by omega), scale_metrics]
  have hcount : ∀ name, (names.filter (fun n => [n] = [name])).length = names.count name := by
    intro name
    rw [List.count, List.countP_eq_length_filter]
    congr 2
    funext n
    by_cases h : n = name <;> simp [h]
  refine ⟨?_, ?_, ?_, ?_, ?_, ?_, ?_⟩
  · intro name
    simp only [published, incAll_reset_apply names hlen, hcount]
    by_cases hmem : name ∈ names
    · simp [hmem, List.count_eq_one_of_mem hnd hmem]
    · simp [hmem, List.count_eq_zero_of_not_mem hmem]
  · intro k hk
    simp only [published, incAll_reset_apply names hlen]
    have : names.filter (fun n => [n] = k) = [] := by
      rw [List.filter_eq_nil_iff]
      intro n _
      simpa using fun h => hk n h.symm
    simp [this]
  · have hl : ((names.length : Int)).natAbs ≤ 2 ^ 53 := by simpa using hlen
    simp [published, GaugeVec.set, float64_of_small hl]
  · simp [published, GaugeVec.set, float64_of_small hc1]
  · simp [published, GaugeVec.set, float64_of_small hc2]
  · simp [published, GaugeVec.set, float64_of_small hc5]
  · simp [published, GaugeVec.set, float64_of_small hc9]

/-- Stale gauges, two distinct runners, counts 2/1/3/0: the stale series of `runner9` is gone,
each runner read has presence 1, the totals are the fresh ones. -/
theorem reconcile_publishes_reads_witness :
    (reconcile (startup CommandLine.empty) demoProcess
      (demoStore ["runner1", "runner2"] 2 1 3 0 .noRows)
      staleMetrics).metrics.runnersGaugeVec ["runner9"] = none ∧
    (reconcile (startup CommandLine.empty) demoProcess
      (demoStore ["runner1", "runner2"] 2 1 3 0 .noRows)
      staleMetrics).metrics.runnersGaugeVec ["runner2"] = some 1 ∧
    (reconcile (startup CommandLine.empty) demoProcess
      (demoStore ["runner1", "runner2"] 2 1 3 0 .noRows)
      staleMetrics).metrics.totalGaugeVec [] = some 2 ∧
    (reconcile (startup CommandLine.empty) demoProcess
      (demoStore ["runner1", "runner2"] 2 1 3 0 .noRows)
      staleMetrics).metrics.jobsGaugeVec ["pending"] = some 2 :=
  have h := reconcile_publishes_reads (startup CommandLine.empty) demoProcess
    (demoStore ["runner1", "runner2"] 2 1 3 0 .noRows) staleMetrics ["runner1", "runner2"]
    2 1 3 0 rfl rfl rfl rfl rfl (by decide) (by decide) (by decide) (by decide) (by decide)
    (by decide)
  ⟨h.1 "runner9", h.1 "runner2", h.2.2.1, h.2.2.2.1⟩

/-! ## Formatting the new runner name -/

theorem digitsValue_foldl (ds : List Char) (acc : Nat) :
    ds.foldl (fun acc c => 10 * acc + (c.toNat - 48)) acc =
      acc * 10 ^ ds.length + digitsValue ds := by
  induction ds generalizing acc with
  | nil => simp [digitsValue]
  | cons c rest ih =>
    simp only [List.foldl_cons, digitsValue, List.length_cons]
    rw [ih, ih (10 * 0 + (c.toNat - 48))]
    ring

theorem digitsValue_cons (c : Char) (ds : List Char) :
    digitsValue (c :: ds) = (c.toNat - 48) * 10 ^ ds.length + digitsValue ds := by
  rw [digitsValue, List.foldl_cons, digitsValue_foldl]
  simp

theorem digitChar_value (k : Nat) (hk : k < 10) : (Nat.digitChar k).toNat - 48 = k := by
  interval_cases k <;> rfl

theorem digitsValue_toDigitsCore (fuel n : Nat) (ds : List Char) (h : n < fuel) :
    digitsValue (Nat.toDigitsCore 10 fuel n ds) = n * 10 ^ ds.length + digitsValue ds := by
  induction fuel generalizing n ds with
  | zero => omega
  | succ fuel ih =>
    unfold Nat.toDigitsCore
    have hd := digitChar_value (n % 10) (Nat.mod_lt _ (by decide))
    by_cases h0 : n / 10 = 0
    · simp only [h0, if_true]
      rw [digitsValue_cons, hd]
      have : n % 10 = n := by omega
      rw [this]
    · simp only [h0, if_false]
      rw [ih (n / 10) _ (by omega), digitsValue_cons, hd, List.length_cons, pow_succ]
      have hn : n = 10 * (n / 10) + n % 10 := (Nat.div_add_mod n 10).symm
      generalize n / 10 = q at hn ⊢
      generalize n % 10 = r at hn ⊢
      subst hn
      ring

theorem digitsValue_toDigits (n : Nat) : digitsValue (Nat.toDigits 10 n) = n := by
  rw [Nat.toDigits, digitsValue_toDigitsCore _ _ _ (Nat.lt_succ_self n)]
  simp [digitsValue]

/-- Decimal renderings of distinct non-negative integers are distinct. -/
theorem decimal_injective_of_nonneg {a b : Int} (ha : 0 ≤ a) (hb : 0 ≤ b)
    (h : decimal a = decimal b) : a = b := by
  unfold decimal at h
  rw [if_neg (by omega), if_neg (by omega)] at h
  have := congrArg digitsValue h
  rw [digitsValue_toDigits, digitsValue_toDigits] at this
  omega

/-- Text without a percent sign is copied to the output as it stands. -/
theorem doPrintf_text (p rest : List Char) (a : Int) (used : Bool) (hp : '%' ∉ p) :
    doPrintf (p ++ rest) a used = (doPrintf rest a used).map (fun out => p ++ out) := by
  induction p with
  | nil => simp
  | cons c p ih =>
    have hc : c ≠ '%' := fun h => hp (by simp [h])
    have hp2 : '%' ∉ p := fun h => hp (by simp [h])
    have ih := ih hp2
    cases hpr : p ++ rest with
    | nil =>
      have h1 : p = [] := (List.append_eq_nil.mp hpr).1
      have h2 : rest = [] := (List.append_eq_nil.mp hpr).2
      subst h1 h2
      simp [doPrintf, hc]
    | cons v r =>
      rw [List.cons_append, hpr, doPrintf, if_neg hc, ← hpr, ih]
      cases doPrintf rest a used <;> simp

/-- A percent-free prefix followed by `%d`: the prefix, then the operand in decimal. -/
theorem doPrintf_plain (p : List Char) (a : Int) (hp : '%' ∉ p) :
    doPrintf (p ++ ['%', 'd']) a false = some (p ++ decimal a) := by
  rw [doPrintf_text p _ a false hp]
  simp [doPrintf, extraArg]

/-- A percent-free text, a percent sign, then `%d`: the two percent signs form the
directive `%%`, the `d` is text and the operand is reported as extra. -/
theorem doPrintf_percent (p : List Char) (a : Int) (hp : '%' ∉ p) :
    doPrintf (p ++ '%' :: ['%', 'd']) a false =
      some (p ++ "%d%!(EXTRA int=".data ++ decimal a ++ [')']) := by
  rw [doPrintf_text p _ a false hp]
  simp [doPrintf, extraArg]

/-- Under Go's formatting, a percent-free runner prefix yields the prefix followed by the
index in decimal. -/
theorem sprintf_plain (os : Process) (hfmt : GoFmt os) (p : String) (a : Int)
    (hp : '%' ∉ p.data) : os.sprintf (p ++ "%d") a = p ++ decimalString a := by
  rw [hfmt (p ++ "%d") a (p.data ++ decimal a) (by
    rw [String.data_append]; exact doPrintf_plain p.data a hp)]
  apply String.ext
  simp [decimalString, String.data_append]

theorem goFmt_demoProcess : GoFmt demoProcess := by
  intro format a out h
  simp [demoProcess, sprintfModel, h]

/-- C7, behaviour at a prefix that ends in a percent sign. With Go's formatting and the
runner prefix `p%` (`p` free of percent signs), a scale-up hands the up command the parent
environment followed by the single entry `RUNNER_NAME=p%d%!(EXTRA int=<n+1>)`, which is not
`RUNNER_NAME=<prefix><n+1>`: the prefix is used as part of the format string. -/
theorem reconcile_up_name_percent_prefix (g : Globals) (os : Process) (db : Store) (m : Metrics)
    (names : List String) (pending processing waiting completing : Int) (p : String)
    (hfmt : GoFmt os) (hpre : g.runnerPrefix = p ++ "%") (hp : '%' ∉ p.data)
    (hr : db.runnerRows = .ok (names.map Except.ok))
    (h1 : db.jobCount 1 = .ok pending) (h2 : db.jobCount 2 = .ok processing)
    (h5 : db.jobCount 5 = .ok waiting) (h9 : db.jobCount 9 = .ok completing)
    (hmax : g.maxRunners < 2 ^ 63)
    (hpend : pending ≥ g.minPending) (hn : (names.length : Int) < g.maxRunners) :
    (reconcile g os db m).calls =
      [Call.up g.up (os.environ ++
        ["RUNNER_NAME=" ++
          (p ++ ("%d%!(EXTRA int=" ++ (decimalString (names.length + 1) ++ ")")))])] ∧
    "RUNNER_NAME=" ++ (p ++ ("%d%!(EXTRA int=" ++ (decimalString (names.length + 1) ++ ")"))) ≠
      "RUNNER_NAME=" ++ (g.runnerPrefix ++ decimalString (names.length + 1)) := by
  have hcalls := (scale_up_calls g os db
    (published m names pending processing waiting completing) readQueries names.length pending
    waiting (by omega) hmax hpend hn).1
  rw [← reconcile_of_reads g os db m names pending processing waiting completing hr h1 h2 h5 h9
    (by omega)] at hcalls
  have hdata : (g.runnerPrefix ++ "%d").data = p.data ++ '%' :: ['%', 'd'] := by
    rw [hpre]; simp [String.data_append]
  have hname : os.sprintf (g.runnerPrefix ++ "%d") (names.length + 1) =
      p ++ ("%d%!(EXTRA int=" ++ (decimalString (names.length + 1) ++ ")")) := by
    rw [hfmt _ _ _ (by rw [hdata]; exact doPrintf_percent p.data _ hp)]
    apply String.ext
    simp [decimalString, String.data_append]
  constructor
  · rw [hcalls, hname]
  · intro h
    have hl := congrArg String.length h
    rw [hpre] at hl
    simp only [String.length_append] at hl
    have h15 : "%d%!(EXTRA int=".length = 15 := by decide
    have h1 : ")".length = 1 := by decide
    have h1b : "%".length = 1 := by decide
    omega

/-- Runner prefix `spot-50%`, three runners, 12 pending jobs with `minPending = 10` and
`maxRunners = 5`: the up command receives `RUNNER_NAME=spot-50%d%!(EXTRA int=4)`. -/
theorem reconcile_up_name_percent_prefix_witness :
    (reconcile (demoGlobals 0 5 10 "spot-50%")
        demoProcess (demoStore ["a", "b", "c"] 12 0 0 0 .noRows) noMetrics).calls =
      [Call.up "./up.sh" ["PATH=/usr/bin", "RUNNER_NAME=spot-50%d%!(EXTRA int=4)"]] ∧
    "RUNNER_NAME=spot-50%d%!(EXTRA int=4)" ≠ "RUNNER_NAME=spot-50%4" :=
  reconcile_up_name_percent_prefix
    (demoGlobals 0 5 10 "spot-50%")
    demoProcess (demoStore ["a", "b", "c"] 12 0 0 0 .noRows) noMetrics ["a", "b", "c"] 12 0 0 0
    "spot-50" goFmt_demoProcess rfl (by decide) rfl rfl rfl rfl rfl (by decide) (by decide)
    (by decide)

/-- C10, counterexample. One registered runner named `runner2` (its sibling `runner1` was
removed earlier), prefix `runner`, 12 pending jobs: the scale-up passes `runner2`, the name
of the registered runner. -/
theorem reconcile_up_name_collides :
    (reconcile (startup maxFiveCommandLine) demoProcess
      (demoStore ["runner2"] 12 1 0 0 .noRows) noMetrics).calls =
      [Call.up "" ["PATH=/usr/bin", "RUNNER_NAME=" ++ "runner2"]] ∧
    "runner2" ∈ ["runner2"] :=
  ⟨by decide, by decide⟩

/-- C10, amended. With Go's formatting, a runner prefix free of percent signs and an
inventory in which every registered name is the prefix followed by the decimal of an index
not above the number of registered runners, the name a scale-up passes to the up command
is the prefix followed by that number plus one, and it differs from every registered
name. -/
theorem reconcile_up_name_fresh (g : Globals) (os : Process) (db : Store) (m : Metrics)
    (names : List String) (pending processing waiting completing : Int)
    (hfmt : GoFmt os) (hpct : '%' ∉ g.runnerPrefix.data)
    (hnames : ∀ name ∈ names, ∃ i : Nat, i ≤ names.length ∧
      name = g.runnerPrefix ++ decimalString i)
    (hr : db.runnerRows = .ok (names.map Except.ok))
    (h1 : db.jobCount 1 = .ok pending) (h2 : db.jobCount 2 = .ok processing)
    (h5 : db.jobCount 5 = .ok waiting) (h9 : db.jobCount 9 = .ok completing)
    (hmax : g.maxRunners < 2 ^ 63)
    (hpend : pending ≥ g.minPending) (hn : (names.length : Int) < g.maxRunners) :
    (reconcile g os db m).calls =
      [Call.up g.up (os.environ ++
        ["RUNNER_NAME=" ++ (g.runnerPrefix ++ decimalString (names.length + 1))])] ∧
    g.runnerPrefix ++ decimalString (names.length + 1) ∉ names := by
  have hcalls := (scale_up_calls g os db
    (published m names pending processing waiting completing) readQueries names.length pending
    waiting (by omega) hmax hpend hn).1
  rw [← reconcile_of_reads g os db m names pending processing waiting completing hr h1 h2 h5 h9
    (by omega)] at hcalls
  rw [sprintf_plain os hfmt g.runnerPrefix _ hpct] at hcalls
  refine ⟨hcalls, ?_⟩
  intro hmem
  obtain ⟨i, hi, heq⟩ := hnames _ hmem
  have hdata := congrArg String.data heq
  simp only [String.data_append, decimalString] at hdata
  have hdec := decimal_injective_of_nonneg (by omega) (by omega) (List.append_cancel_left hdata)
  omega

/-- Runners `runner1`, `runner2`, `runner3` and prefix `runner`: the new name `runner4` is
not registered. -/
theorem reconcile_up_name_fresh_witness :
    (reconcile (startup maxFiveCommandLine) demoProcess
      (demoStore ["runner1", "runner2", "runner3"] 12 1 0 0 .noRows) noMetrics).calls =
      [Call.up "" ["PATH=/usr/bin", "RUNNER_NAME=" ++ "runner4"]] ∧
    "runner4" ∉ ["runner1", "runner2", "runner3"] :=
  reconcile_up_name_fresh (startup maxFiveCommandLine) demoProcess
    (demoStore ["runner1", "runner2", "runner3"] 12 1 0 0 .noRows) noMetrics
    ["runner1", "runner2", "runner3"] 12 1 0 0 goFmt_demoProcess (by decide)
    (fun name hname => by
      simp only [List.mem_cons, List.mem_singleton, List.not_mem_nil, or_false] at hname
      rcases hname with rfl | rfl | rfl
      · exact ⟨1, by decide, by decide⟩
      · exact ⟨2, by decide, by decide⟩
      · exact ⟨3, by decide, by decide⟩)
    rfl rfl rfl rfl rfl (by decide) (by decide) (by decide)

/-- Whatever the command line, the idle-runner query keeps the pattern it was given at
package initialisation, `%`, which every name matches. -/
theorem startup_sqlIdle (cl : CommandLine) : (startup cl).sqlIdle = "%" := rfl

theorem likeMatch_percent (s : List Char) : likeMatch ['%'] s = true := by
  cases s <;> simp [likeMatch, List.tails]

/-- C6, behaviour at the failing input. With `-runner-prefix=runner`, no job at all and the
registered runners `encoder-a` and `runner1`, the idle query `reconcile` sends carries the
pattern `%` rather than `runner%`, it returns `encoder-a`, and the down command is started
for `encoder-a`, a name that does not start with the configured prefix. -/
theorem reconcile_idle_query_ignores_runner_prefix :
    (startup runnerCommandLine).runnerPrefix = "runner" ∧
    (reconcile (startup runnerCommandLine) demoProcess
      mixedNamesDb.store noMetrics).queries = readQueries ++ [Query.idle "%"] ∧
    Query.idle "%" ≠
      Query.idle (sqlIdlePattern
        (startup runnerCommandLine).runnerPrefix) ∧
    (reconcile (startup runnerCommandLine) demoProcess
      mixedNamesDb.store noMetrics).calls =
      [Call.down "" ["PATH=/usr/bin", "RUNNER_NAME=encoder-a"]] ∧
    ¬ ("runner".data <+: "encoder-a".data) :=
  ⟨rfl, by decide, by decide, by decide, by decide⟩

end Autoscale
